import Mathlib

/-!
Verification development for the wedding-venue ETL pipeline.

The Python source is shallowly embedded: dictionaries become an inductive
value type (`PyVal`) or typed structures with optional fields, floats become
rationals, and fallible operations (division by zero, `KeyError`) return
`Option`.  The deduplication / entity-resolution core described by the
specification is not present in the source tree, so its definitions are
modelled from the specification's own wording (each such definition says so
in its doc comment).
-/

namespace WeddingAgents

/-- Python/JSON-like values as stored in venue dictionaries. -/
inductive PyVal where
  | none
  | bool (b : Bool)
  | int (n : Int)
  | float (q : ℚ)
  | str (s : String)
  | list (xs : List PyVal)
  | dict (kvs : List (String × PyVal))

/-- Python truthiness, `bool(v)`. -/
def PyVal.truthy : PyVal → Bool
  | .none => false
  | .bool b => b
  | .int n => n != 0
  | .float q => q != 0
  | .str s => s != ""
  | .list xs => !xs.isEmpty
  | .dict kvs => !kvs.isEmpty

/-- Dictionary key lookup: `d[k]` when `d` is a dict, otherwise no value. -/
def PyVal.lookup : PyVal → String → Option PyVal
  | .dict kvs, k => kvs.lookup k
  | _, _ => Option.none

/-- Path traversal loop of `_has_field` (src/backend/etl/enrichment_service.py):
walks the dot-separated parts, failing when a part is absent or the current
value is not a dict, and finally tests Python truthiness of the reached value
(`bool(current) and current != "" and current != [] and current != {}`,
which coincides with plain truthiness). -/
def hasFieldGo : PyVal → List String → Bool
  | cur, [] => cur.truthy
  | cur, p :: ps =>
    match cur.lookup p with
    | some v => hasFieldGo v ps
    | Option.none => false

/-- `_has_field(obj, field_path)`: nested field exists and is non-empty. -/
def hasField (obj : PyVal) (path : String) : Bool :=
  hasFieldGo obj (path.splitOn ".")

/-- Critical fields (40% weight) of `_calculate_confidence_score`. -/
def critical_fields : List String :=
  ["name", "venue_type", "pricing.price_per_table", "pricing.pricing_type",
   "capacity.max_capacity"]

/-- High priority fields (30% weight). -/
def high_fields : List String :=
  ["location.address", "location.zone", "pricing.min_spend", "contact.phone",
   "contact.email"]

/-- Medium priority fields (20% weight). -/
def medium_fields : List String :=
  ["location.nearest_mrt", "amenities.bridal_suite", "description", "rating"]

/-- Low priority fields (10% weight). -/
def low_fields : List String := ["restrictions.outside_catering", "contact.website"]

/-- `sum(1 for f in fields if _has_field(venue, f))`. -/
def filledCount (venue : PyVal) (fields : List String) : ℕ :=
  fields.countP (fun f => hasField venue f)

/-- Python `round` to the nearest integer, ties to even (banker's rounding). -/
def pyRound (q : ℚ) : ℤ :=
  if q - (⌊q⌋ : ℚ) < 1/2 then ⌊q⌋
  else if 1/2 < q - (⌊q⌋ : ℚ) then ⌊q⌋ + 1
  else if 2 ∣ ⌊q⌋ then ⌊q⌋ else ⌊q⌋ + 1

/-- Python `round(q, 2)`. -/
def round2 (q : ℚ) : ℚ := (pyRound (q * 100) : ℚ) / 100

/-- `_calculate_confidence_score(venue)` from
src/backend/etl/enrichment_service.py (identical copy in
src/backend/etl/tools/enrich_tool.py): weighted field-completeness score,
rounded to 2 decimals. -/
def calculate_confidence_score (venue : PyVal) : ℚ :=
  round2 (0
    + (filledCount venue critical_fields : ℚ) / (critical_fields.length : ℚ) * (4/10)
    + (filledCount venue high_fields : ℚ) / (high_fields.length : ℚ) * (3/10)
    + (filledCount venue medium_fields : ℚ) / (medium_fields.length : ℚ) * (2/10)
    + (filledCount venue low_fields : ℚ) / (low_fields.length : ℚ) * (1/10))

/-! ## Venue search / pricing service (src/backend/services/venue_service.py) -/

/-- `capacity` sub-dictionary of a venue; absent keys are `Option.none`. -/
structure Capacity where
  min_tables : Option ℤ
  max_capacity : Option ℤ

/-- `pricing` sub-dictionary of a venue. -/
structure Pricing where
  price_per_table : Option ℚ
  min_spend : Option ℚ

/-- One entry of the `packages` list of a venue. -/
structure Package where
  name : Option String
  price_per_table : Option ℚ

/-- A venue dictionary, restricted to the keys the service reads. -/
structure Venue where
  capacity : Option Capacity
  pricing : Option Pricing
  zone : Option String
  rating : Option ℚ
  packages : Option (List Package)

/-- `v.get('capacity', {})` for an absent key. -/
def emptyCapacity : Capacity := ⟨Option.none, Option.none⟩

/-- `v.get('pricing', {})` for an absent key. -/
def emptyPricing : Pricing := ⟨Option.none, Option.none⟩

/-- `tables_needed = (guest_count + 9) // 10`. -/
def tablesNeeded (guest_count : ℕ) : ℕ := (guest_count + 9) / 10

/-- `x.get('rating', 0)`, the sort key of `search`. -/
def ratingOf (v : Venue) : ℚ := v.rating.getD 0

/-- `capacity.get('min_tables', 0)`. -/
def minTablesOf (v : Venue) : ℤ := (v.capacity.getD emptyCapacity).min_tables.getD 0

/-- `capacity.get('max_capacity', 0)`. -/
def maxCapacityOf (v : Venue) : ℤ := (v.capacity.getD emptyCapacity).max_capacity.getD 0

/-- `pricing.get('price_per_table', 0)`. -/
def pricePerTableOf (v : Venue) : ℚ := (v.pricing.getD emptyPricing).price_per_table.getD 0

/-- `pricing.get('min_spend', 0)`. -/
def minSpendOf (v : Venue) : ℚ := (v.pricing.getD emptyPricing).min_spend.getD 0

/-- `location_zone.lower() in venue_zone.lower()` (substring containment). -/
def zoneMatches (location_zone venue_zone : String) : Bool :=
  decide (location_zone.toLower.toList <:+: venue_zone.toLower.toList)

/-- `budget_per_table = total_budget / tables_needed if tables_needed > 0 else 0`. -/
def budgetPerTable (guest_count : ℕ) (total_budget : ℚ) : ℚ :=
  if 0 < tablesNeeded guest_count then total_budget / (tablesNeeded guest_count : ℚ) else 0

/-- `max_price = max_price_per_table or (budget_per_table * 1.2)` — Python `or`
falls through when `max_price_per_table` is `None` or `0`. -/
def effectiveMaxPrice (guest_count : ℕ) (total_budget : ℚ) (max_price_per_table : Option ℚ) : ℚ :=
  match max_price_per_table with
  | some m => if m ≠ 0 then m else budgetPerTable guest_count total_budget * (12/10)
  | Option.none => budgetPerTable guest_count total_budget * (12/10)

/-- The per-venue keep condition of the filter loop in `VenueService.search`
(the four `continue` guards plus the optional zone filter, as a conjunction). -/
def searchFilter (guest_count : ℕ) (total_budget : ℚ) (location_zone : Option String)
    (max_price : ℚ) (v : Venue) : Bool :=
  decide ((guest_count : ℤ) ≤ maxCapacityOf v)
    && decide (minTablesOf v ≤ (tablesNeeded guest_count : ℤ))
    && decide (pricePerTableOf v ≤ max_price)
    && decide (minSpendOf v ≤ total_budget)
    && (match location_zone with
        | Option.none => true
        | some z => zoneMatches z (v.zone.getD ""))

/-- `VenueService.search`: filter by capacity/budget/zone, sort by rating
descending (Python `sorted` = stable merge sort), return the first 10. -/
def search (venues : List Venue) (guest_count : ℕ) (total_budget : ℚ)
    (location_zone : Option String) (max_price_per_table : Option ℚ) : List Venue :=
  let max_price := effectiveMaxPrice guest_count total_budget max_price_per_table
  let filtered := venues.filter (searchFilter guest_count total_budget location_zone max_price)
  let sorted := filtered.mergeSort (fun a b => decide (ratingOf b ≤ ratingOf a))
  sorted.take 10

/-- Cost-breakdown dictionary returned by `VenueService.calculate_total_cost`. -/
structure CostBreakdown where
  guest_count : ℕ
  tables_needed : ℕ
  price_per_table : ℚ
  base_cost : ℚ
  gst : ℚ
  service_charge : ℚ
  total_cost : ℚ
  total_with_surcharges : ℚ
  cost_per_guest : ℚ

/-- Python division, raising (`Option.none`) on a zero divisor. -/
def pyDiv (a b : ℚ) : Option ℚ :=
  if b = 0 then Option.none else some (a / b)

/-- The package-override loop of `calculate_total_cost`: first package whose
`name` equals the requested one supplies `price_per_table`
(defaulting to the current value when the key is absent). -/
def findPackagePrice : List Package → String → ℚ → ℚ
  | [], _, cur => cur
  | p :: ps, pname, cur =>
    if p.name = some pname then p.price_per_table.getD cur
    else findPackagePrice ps pname cur

/-- `VenueService.calculate_total_cost`: cost breakdown with GST and service
charge; the `cost_per_guest` entry divides by `guest_count` with no guard, so
the call raises (`Option.none`) when `guest_count = 0`. -/
def calculate_total_cost (venue : Venue) (guest_count : ℕ)
    (package_name : Option String) : Option CostBreakdown :=
  let tables_needed := tablesNeeded guest_count
  let ppt := pricePerTableOf venue
  let price_per_table :=
    match package_name with
    | Option.none => ppt
    | some pname => findPackagePrice (venue.packages.getD []) pname ppt
  let base_cost := price_per_table * (tables_needed : ℚ)
  let gst := base_cost * (9/100)
  let service_charge := base_cost * (10/100)
  let total_cost := base_cost + gst + service_charge
  match pyDiv total_cost (guest_count : ℚ) with
  | Option.none => Option.none
  | some cpg => some
      { guest_count := guest_count
        tables_needed := tables_needed
        price_per_table := price_per_table
        base_cost := round2 base_cost
        gst := round2 gst
        service_charge := round2 service_charge
        total_cost := round2 total_cost
        total_with_surcharges := round2 total_cost
        cost_per_guest := round2 cpg }

/-! ## Enrichment job models (src/backend/etl/models.py) -/

/-- A `datetime.datetime` value (wall-clock fields, microsecond precision). -/
structure Datetime where
  year : ℕ
  month : ℕ
  day : ℕ
  hour : ℕ
  minute : ℕ
  second : ℕ
  microsecond : ℕ
deriving DecidableEq

/-- Left-pad the decimal representation of `n` with zeros to width `w`. -/
def padNum (w : ℕ) (n : ℕ) : String :=
  String.mk (List.replicate (w - (toString n).length) '0') ++ toString n

/-- `datetime.isoformat()`: `YYYY-MM-DDTHH:MM:SS[.ffffff]`, the fractional
part present only when `microsecond` is nonzero. -/
def isoformat (d : Datetime) : String :=
  padNum 4 d.year ++ "-" ++ padNum 2 d.month ++ "-" ++ padNum 2 d.day ++ "T"
    ++ padNum 2 d.hour ++ ":" ++ padNum 2 d.minute ++ ":" ++ padNum 2 d.second
    ++ (if d.microsecond = 0 then "" else "." ++ padNum 6 d.microsecond)

/-- Split a character list at every occurrence of the separator `c`
(the separator fields of ISO strings are single characters). -/
def splitOnChar (c : Char) : List Char → List (List Char)
  | [] => [[]]
  | x :: xs =>
    if x = c then [] :: splitOnChar c xs
    else
      match splitOnChar c xs with
      | ys :: rest => (x :: ys) :: rest
      | [] => [[x]]

/-- Parse a non-empty all-digit character run (Python `int`, restricted to
the unsigned decimal forms ISO fields use). -/
def parseNatAux : List Char → ℕ → Option ℕ
  | [], acc => some acc
  | c :: cs, acc =>
    if c.isDigit then parseNatAux cs (acc * 10 + (c.toNat - 48)) else Option.none

/-- `int(s)` on a decimal field; the empty string fails. -/
def parseNat : List Char → Option ℕ
  | [] => Option.none
  | l => parseNatAux l 0

/-- `datetime.fromisoformat` on the formats `isoformat` produces; any other
shape fails (`ValueError`/`TypeError` becomes `Option.none`). -/
def fromisoformat (s : String) : Option Datetime :=
  match splitOnChar 'T' s.data with
  | [ds, ts] =>
    match splitOnChar '-' ds with
    | [ys, ms, dds] =>
      match splitOnChar ':' ts with
      | [hs, mins, rest] =>
        match splitOnChar '.' rest with
        | [ss] => do
          let y ← parseNat ys
          let mo ← parseNat ms
          let dd ← parseNat dds
          let hh ← parseNat hs
          let mi ← parseNat mins
          let sec ← parseNat ss
          pure ⟨y, mo, dd, hh, mi, sec, 0⟩
        | [ss, us] => do
          let y ← parseNat ys
          let mo ← parseNat ms
          let dd ← parseNat dds
          let hh ← parseNat hs
          let mi ← parseNat mins
          let sec ← parseNat ss
          let mic ← parseNat us
          pure ⟨y, mo, dd, hh, mi, sec, mic⟩
        | _ => Option.none
      | _ => Option.none
    | _ => Option.none
  | _ => Option.none

/-- `JobStatus` enum. -/
inductive JobStatus where
  | pending
  | queued
  | in_progress
  | completed
  | failed
deriving DecidableEq

/-- `JobStatus.value`, the string payload of the enum member. -/
def JobStatus.value : JobStatus → String
  | .pending => "pending"
  | .queued => "queued"
  | .in_progress => "in_progress"
  | .completed => "completed"
  | .failed => "failed"

/-- `JobStatus(s)`: enum constructor from value, `ValueError` on anything else. -/
def jobStatusOfValue : String → Option JobStatus
  | "pending" => some .pending
  | "queued" => some .queued
  | "in_progress" => some .in_progress
  | "completed" => some .completed
  | "failed" => some .failed
  | _ => Option.none

/-- `SearchQuery` dataclass. -/
structure SearchQuery where
  category : String
  query : String
  priority : ℤ
deriving DecidableEq

/-- `VenueResearchJob` dataclass (fields in declaration order). -/
structure VenueResearchJob where
  venue_id : String
  venue_name : String
  missing_fields : List String
  search_queries : List SearchQuery
  status : JobStatus
  created_at : Datetime
  started_at : Option Datetime
  completed_at : Option Datetime
  confidence_before : ℚ
  confidence_after : Option ℚ
  enrichment_data : List (String × PyVal)
  error_message : Option String

/-- Serialization of one `SearchQuery` inside `VenueResearchJob.to_dict`. -/
def SearchQuery.toDict (q : SearchQuery) : PyVal :=
  .dict [("category", .str q.category), ("query", .str q.query), ("priority", .int q.priority)]

/-- `x.isoformat() if x else None` for an optional datetime. -/
def optDtVal : Option Datetime → PyVal
  | Option.none => .none
  | some d => .str (isoformat d)

/-- An optional float serialized as itself (`None` stays `None`). -/
def optFloatVal : Option ℚ → PyVal
  | Option.none => .none
  | some q => .float q

/-- An optional string serialized as itself. -/
def optStrVal : Option String → PyVal
  | Option.none => .none
  | some s => .str s

/-- `VenueResearchJob.to_dict`. -/
def VenueResearchJob.to_dict (j : VenueResearchJob) : List (String × PyVal) :=
  [("venue_id", .str j.venue_id),
   ("venue_name", .str j.venue_name),
   ("missing_fields", .list (j.missing_fields.map .str)),
   ("search_queries", .list (j.search_queries.map SearchQuery.toDict)),
   ("status", .str j.status.value),
   ("created_at", .str (isoformat j.created_at)),
   ("started_at", optDtVal j.started_at),
   ("completed_at", optDtVal j.completed_at),
   ("confidence_before", .float j.confidence_before),
   ("confidence_after", optFloatVal j.confidence_after),
   ("enrichment_data", .dict j.enrichment_data),
   ("error_message", optStrVal j.error_message)]

/-- Expect a string value (an ill-typed value fails the decode). -/
def asStr : PyVal → Option String
  | .str s => some s
  | _ => Option.none

/-- Expect a number (a float field may also receive an int). -/
def asFloat : PyVal → Option ℚ
  | .float q => some q
  | .int n => some (n : ℚ)
  | _ => Option.none

/-- Expect an int. -/
def asInt : PyVal → Option ℤ
  | .int n => some n
  | _ => Option.none

/-- Expect a list of strings. -/
def asStrList : PyVal → Option (List String)
  | .list xs => xs.mapM asStr
  | _ => Option.none

/-- Decode one search-query dict inside `VenueResearchJob.from_dict`:
`q["category"]`, `q["query"]`, `q.get("priority", 1)`. -/
def decodeSearchQuery : PyVal → Option SearchQuery
  | .dict kvs => do
    let c ← kvs.lookup "category" >>= asStr
    let q ← kvs.lookup "query" >>= asStr
    let p ← asInt ((kvs.lookup "priority").getD (.int 1))
    pure ⟨c, q, p⟩
  | _ => Option.none

/-- `datetime.fromisoformat(data[k]) if data.get(k) else datetime.now()`
(the wall clock is passed in as `now`). -/
def decodeCreatedAt (now : Datetime) : Option PyVal → Option Datetime
  | some v => if v.truthy then asStr v >>= fromisoformat else some now
  | Option.none => some now

/-- `datetime.fromisoformat(data[k]) if data.get(k) else None`. -/
def decodeOptDt : Option PyVal → Option (Option Datetime)
  | some v => if v.truthy then (asStr v >>= fromisoformat).map some else some Option.none
  | Option.none => some Option.none

/-- `data.get(k)` read into an optional float field. -/
def decodeOptFloat : Option PyVal → Option (Option ℚ)
  | some .none => some Option.none
  | some (.float q) => some (some q)
  | some (.int n) => some (some (n : ℚ))
  | some _ => Option.none
  | Option.none => some Option.none

/-- `data.get(k)` read into an optional string field. -/
def decodeOptStr : Option PyVal → Option (Option String)
  | some .none => some Option.none
  | some (.str s) => some (some s)
  | some _ => Option.none
  | Option.none => some Option.none

/-- `VenueResearchJob.from_dict`, with the wall clock (`datetime.now()`)
passed explicitly; `KeyError`/`ValueError`/ill-typed fields become
`Option.none`. -/
def VenueResearchJob.from_dict (now : Datetime) (data : List (String × PyVal)) :
    Option VenueResearchJob := do
  let vid ← data.lookup "venue_id" >>= asStr
  let vname ← data.lookup "venue_name" >>= asStr
  let mf ← asStrList ((data.lookup "missing_fields").getD (.list []))
  let sqs ← (match (data.lookup "search_queries").getD (.list []) with
             | .list xs => xs.mapM decodeSearchQuery
             | _ => Option.none)
  let stv ← asStr ((data.lookup "status").getD (.str "pending"))
  let st ← jobStatusOfValue stv
  let cr ← decodeCreatedAt now (data.lookup "created_at")
  let sa ← decodeOptDt (data.lookup "started_at")
  let ca ← decodeOptDt (data.lookup "completed_at")
  let cb ← asFloat ((data.lookup "confidence_before").getD (.float 0))
  let cfa ← decodeOptFloat (data.lookup "confidence_after")
  let ed ← (match (data.lookup "enrichment_data").getD (.dict []) with
            | .dict kvs => some kvs
            | _ => Option.none)
  let em ← decodeOptStr (data.lookup "error_message")
  pure ⟨vid, vname, mf, sqs, st, cr, sa, ca, cb, cfa, ed, em⟩

/-- A datetime whose ISO representation parses back to itself. -/
def dtRoundtrips (d : Datetime) : Prop := fromisoformat (isoformat d) = some d

/-- `dtRoundtrips` lifted to an optional datetime. -/
def optDtRoundtrips : Option Datetime → Prop
  | Option.none => True
  | some d => dtRoundtrips d

/-- A concrete research job used to instantiate the round-trip theorem. -/
def sampleJob : VenueResearchJob where
  venue_id := "venue_001"
  venue_name := "Grand Hyatt"
  missing_fields := ["pricing.min_spend"]
  search_queries := [⟨"pricing", "grand hyatt wedding price", 2⟩]
  status := .in_progress
  created_at := ⟨2024, 5, 17, 12, 30, 45, 123456⟩
  started_at := some ⟨2023, 12, 1, 0, 0, 7, 0⟩
  completed_at := Option.none
  confidence_before := 45/100
  confidence_after := Option.none
  enrichment_data := [("pricing", .dict [("min_spend", .int 10000)])]
  error_message := Option.none

/-! ## Deduplication / entity-resolution core

The engine described in spec §4 is not present under the source tree (only
its collaborators are), so every definition below is modelled from the
specification's wording, ASCII-level: character classes and case folding are
expressed through code points so that all operations stay executable. -/

/-- Modelled from the spec (§4.1): the fixed set of low-information
suffix/stopword tokens; §8 fixes "singapore" and "hotel" as members, the rest
are representative generic legal/venue-category words. -/
def stopwords : List String :=
  ["hotel", "restaurant", "cafe", "club", "bar", "hall", "pte", "ltd", "the", "singapore"]

/-- ASCII lower-case letter, digit, or space — the `[a-z0-9 ]` class kept by
name normalization. -/
def isKeptChar (c : Char) : Bool :=
  decide (97 ≤ c.toNat ∧ c.toNat ≤ 122) || decide (48 ≤ c.toNat ∧ c.toNat ≤ 57)
    || decide (c.toNat = 32)

/-- ASCII case folding (`str.lower`, restricted to ASCII letters). -/
def lowerChar (c : Char) : Char :=
  if 65 ≤ c.toNat ∧ c.toNat ≤ 90 then Char.ofNat (c.toNat + 32) else c

/-- Regex word character `[A-Za-z0-9_]`, the boundary class of `\b`. -/
def isWordChar (c : Char) : Bool :=
  decide (65 ≤ c.toNat ∧ c.toNat ≤ 90) || decide (97 ≤ c.toNat ∧ c.toNat ≤ 122)
    || decide (48 ≤ c.toNat ∧ c.toNat ≤ 57) || decide (c.toNat = 95)

/-- Maximal runs of characters with the same word/non-word classification
(giving exactly the `\b` boundaries of word-boundary matching). -/
def splitRuns : List Char → List (List Char)
  | [] => []
  | c :: cs =>
    match splitRuns cs with
    | [] => [[c]]
    | (d :: ds) :: rest =>
      if isWordChar c = isWordChar d then (c :: d :: ds) :: rest
      else [c] :: (d :: ds) :: rest
    | [] :: rest => [c] :: rest

/-- Modelled from the spec (§4.1): strip the stopword tokens via
word-boundary matching — every maximal word-character run that spells a
stopword is deleted, all other text is kept. -/
def stripStopwordsList (l : List Char) : List Char :=
  ((splitRuns l).map
    (fun r => if r.all isWordChar && stopwords.contains (String.mk r) then [] else r)).flatten

/-- Join words back with single spaces (whitespace collapse + trim). -/
def joinWords : List (List Char) → List Char
  | [] => []
  | [w] => w
  | w :: ws => w ++ ' ' :: joinWords ws

/-- The whitespace-separated words surviving normalization of `l`. -/
def wordsOf (l : List Char) : List (List Char) :=
  (splitOnChar ' ' ((stripStopwordsList (l.map lowerChar)).filter isKeptChar)).filter
    (fun w => w ≠ [])

/-- Modelled from the spec (§4.1), on character lists: lowercase, strip
stopword tokens once, drop characters outside `[a-z0-9 ]`, collapse
whitespace runs to one space and trim. -/
def normalizeList (l : List Char) : List Char := joinWords (wordsOf l)

/-- Modelled from the spec (§4.1): `normalize(name)`. -/
def normalize (s : String) : String := String.mk (normalizeList s.data)

/-- Vowels dropped by the phonetic encoder. -/
def isVowel (c : Char) : Bool :=
  c = 'a' || c = 'e' || c = 'i' || c = 'o' || c = 'u'

/-- Phonetic encoding of the remainder: drop vowels, collapse a character
equal to the last emitted one. -/
def phonTail : List Char → Char → List Char
  | [], _ => []
  | c :: cs, lastEmitted =>
    if isVowel c then phonTail cs lastEmitted
    else if c = lastEmitted then phonTail cs lastEmitted
    else c :: phonTail cs c

/-- Modelled from the spec (§4.2): `phoneticKey(name)` — first character of
the normalized name verbatim, vowels dropped and adjacent repeats collapsed
in the remainder, truncated to 8 characters; empty normalized name gives the
empty key. -/
def phoneticKey (name : String) : String :=
  match (normalize name).data with
  | [] => ""
  | c :: rest => String.mk (List.take 8 (c :: phonTail rest c))

/-- Jaccard index of two finite string sets, 0 when either is empty. -/
def jaccardQ (sa sb : Finset String) : ℚ :=
  if sa = ∅ ∨ sb = ∅ then 0
  else ((sa ∩ sb).card : ℚ) / ((sa ∪ sb).card : ℚ)

/-- Whitespace tokens of the normalized name. -/
def tokensOf (s : String) : List String :=
  ((splitOnChar ' ' (normalize s).data).filter (fun w => w ≠ [])).map String.mk

/-- Modelled from the spec (§4.3): token-set (Jaccard) similarity over
normalized-name tokens. -/
def tokenSetSim (a b : String) : ℚ :=
  jaccardQ (tokensOf a).toFinset (tokensOf b).toFinset

/-- Greedy in-window matching of one character class: both position lists
ascend, a left position matches the smallest not-yet-used right position
within the window `w`. -/
def matchClass (w : ℕ) : List ℕ → List ℕ → List (ℕ × ℕ)
  | [], _ => []
  | _ :: _, [] => []
  | a :: as, b :: bs =>
    if b + w < a then matchClass w (a :: as) bs
    else if a + w < b then matchClass w as (b :: bs)
    else (a, b) :: matchClass w as bs
termination_by l₁ l₂ => l₁.length + l₂.length

/-- Ascending positions of character `c` in `s`. -/
def positions (c : Char) (s : List Char) : List ℕ :=
  (s.enum.filter (fun p => decide (p.2 = c))).map Prod.fst

/-- The characters occurring in either string, in a canonical order. -/
def alphabet (s1 s2 : List Char) : List Char :=
  ((s1 ++ s2).toFinset).sort (· ≤ ·)

/-- All matched index pairs of the Jaro matching step: only equal characters
can match, so the greedy in-window matching decomposes per character class. -/
def matchedPairs (w : ℕ) (s1 s2 : List Char) : List (ℕ × ℕ) :=
  ((alphabet s1 s2).map (fun c => matchClass w (positions c s1) (positions c s2))).flatten

/-- Positions in the mismatch count of the transposition step. -/
def mismatches (l1 l2 : List Char) : ℕ :=
  (l1.zip l2).countP (fun p => decide (p.1 ≠ p.2))

/-- Matching window `max(len1,len2)//2 - 1`, minimum 1. -/
def jaroWindow (s1 s2 : List Char) : ℕ := max (max s1.length s2.length / 2 - 1) 1

/-- Matched characters of the left string, in position order. -/
def seqL (P : List (ℕ × ℕ)) (s : List Char) : List Char :=
  ((List.range s.length).filter (fun i => decide (i ∈ P.map Prod.fst))).map
    (fun i => s.getD i ' ')

/-- Matched characters of the right string, in position order. -/
def seqR (P : List (ℕ × ℕ)) (s : List Char) : List Char :=
  ((List.range s.length).filter (fun j => decide (j ∈ P.map Prod.snd))).map
    (fun j => s.getD j ' ')

/-- Modelled from the spec (§4.3): classic Jaro similarity — matching window
`max(len1,len2)//2 - 1` (minimum 1), greedy in-window matches, transpositions
as half the positionwise mismatches of the two matched-character sequences. -/
def jaro (s1 s2 : List Char) : ℚ :=
  if s1 = [] ∨ s2 = [] then 0
  else if s1 = s2 then 1
  else
    let P := matchedPairs (jaroWindow s1 s2) s1 s2
    if P.length = 0 then 0
    else
      let t := mismatches (seqL P s1) (seqR P s2) / 2
      ((P.length : ℚ) / (s1.length : ℚ) + (P.length : ℚ) / (s2.length : ℚ)
        + ((P.length : ℚ) - (t : ℚ)) / (P.length : ℚ)) / 3

/-- Common-prefix length of two character lists. -/
def commonPrefixLen : List Char → List Char → ℕ
  | a :: as, b :: bs => if a = b then commonPrefixLen as bs + 1 else 0
  | _, _ => 0

/-- Modelled from the spec (§4.3): Jaro-Winkler on the normalized strings —
Jaro plus `0.1 * commonPrefixLen(≤4) * (1 - jaro)`; either-empty (after
normalization) gives 0. -/
def jaroWinkler (a b : String) : ℚ :=
  if (normalize a).data = [] ∨ (normalize b).data = [] then 0
  else
    let j := jaro (normalize a).data (normalize b).data
    j + (1/10) * (min (commonPrefixLen (normalize a).data (normalize b).data) 4 : ℚ) * (1 - j)

/-- Modelled from the spec (§4.3): combined name similarity
`0.6 * token_set + 0.4 * jaro_winkler`. -/
def nameSim (a b : String) : ℚ := (6/10) * tokenSetSim a b + (4/10) * jaroWinkler a b

/-- Address tokens: lowercase, keep alphanumerics and spaces, split on
whitespace (the lighter normalization of §4.3 — no suffix stripping). -/
def addrTokens (s : String) : List String :=
  ((splitOnChar ' ' ((s.data.map lowerChar).filter isKeptChar)).filter
    (fun w => w ≠ [])).map String.mk

/-- Modelled from the spec (§4.3): address token-overlap similarity. -/
def addressSim (a b : String) : ℚ :=
  jaccardQ (addrTokens a).toFinset (addrTokens b).toFinset

/-- Digits of a phone string. -/
def phoneDigits (s : String) : List Char :=
  s.data.filter (fun c => decide (48 ≤ c.toNat ∧ c.toNat ≤ 57))

/-- Last 8 entries of a list. -/
def last8 (l : List Char) : List Char := l.drop (l.length - 8)

/-- Modelled from the spec (§4.3): phone match — strip non-digits, compare
the last 8 digits, requiring at least 8 digits on both sides. -/
def phoneMatch (a b : String) : Bool :=
  decide (8 ≤ (phoneDigits a).length ∧ 8 ≤ (phoneDigits b).length
    ∧ last8 (phoneDigits a) = last8 (phoneDigits b))

/-- Domain part of a website: drop the scheme, a leading `www.`, and
everything from the first `/` on. -/
def domainOf (s : String) : List Char :=
  let l := s.data
  let l1 :=
    if ("https://").data.isPrefixOf l then l.drop 8
    else if ("http://").data.isPrefixOf l then l.drop 7
    else l
  let l2 := if ("www.").data.isPrefixOf l1 then l1.drop 4 else l1
  l2.takeWhile (fun c => decide (c ≠ '/'))

/-- Modelled from the spec (§4.3): website domain match, case-insensitive,
no match on an empty input. -/
def websiteMatch (a b : String) : Bool :=
  decide (a ≠ "" ∧ b ≠ ""
    ∧ (domainOf a).map lowerChar = (domainOf b).map lowerChar)

/-- A venue record under resolution (§3): optional fields are `Option`. -/
structure VenueRecord where
  id : String
  name : String
  address : Option String
  postal : Option String
  phone : Option String
  website : Option String
  confidence_score : ℚ

/-- A record field counts as present when it exists and is non-empty. -/
def present : Option String → Bool
  | Option.none => false
  | some s => decide (s ≠ "")

/-- Name signal of the composite score, weight 0.40, always included. -/
def nameTerm (a b : VenueRecord) : ℚ := (4/10) * nameSim a.name b.name

/-- Address signal, weight 0.20, only when both addresses are present. -/
def addressTerm (a b : VenueRecord) : ℚ :=
  if present a.address && present b.address then
    (2/10) * addressSim (a.address.getD "") (b.address.getD "")
  else 0

/-- Phone signal, weight 0.15, only when both phones are present and match. -/
def phoneTerm (a b : VenueRecord) : ℚ :=
  if present a.phone && present b.phone
      && phoneMatch (a.phone.getD "") (b.phone.getD "") then 15/100
  else 0

/-- Website signal, weight 0.15, only when both websites are present and
their domains match. -/
def websiteTerm (a b : VenueRecord) : ℚ :=
  if present a.website && present b.website
      && websiteMatch (a.website.getD "") (b.website.getD "") then 15/100
  else 0

/-- Postal signal, weight 0.10, only when both postal codes are present and
equal. -/
def postalTerm (a b : VenueRecord) : ℚ :=
  if present a.postal && present b.postal
      && decide (a.postal.getD "" = b.postal.getD "") then 1/10
  else 0

/-- Modelled from the spec (§4.4): the Pairwise Scorer's composite score — a
weighted sum over fixed weights 0.40/0.20/0.15/0.15/0.10, missing data
contributing 0. -/
def score (a b : VenueRecord) : ℚ :=
  nameTerm a b + addressTerm a b + phoneTerm a b + websiteTerm a b + postalTerm a b

/-- Modelled from the spec (§4.4): the diagnostic reason string — the
comma-joined signals above their display thresholds, or `low_similarity`. -/
def reason (a b : VenueRecord) : String :=
  let parts :=
    (if decide (8/10 < nameSim a.name b.name) then ["name_match"] else []) ++
    (if present a.address && present b.address
        && decide (8/10 < addressSim (a.address.getD "") (b.address.getD "")) then
      ["address_match"] else []) ++
    (if present a.phone && present b.phone
        && phoneMatch (a.phone.getD "") (b.phone.getD "") then ["phone_match"] else []) ++
    (if present a.website && present b.website
        && websiteMatch (a.website.getD "") (b.website.getD "") then
      ["website_match"] else []) ++
    (if present a.postal && present b.postal
        && decide (a.postal.getD "" = b.postal.getD "") then ["postal_match"] else [])
  if parts = [] then "low_similarity" else String.intercalate ", " parts

/-- Append index `i` to the bucket of `key`, creating the bucket at the end
on first use (insertion order preserved). -/
def addToBlock : List (String × List ℕ) → String → ℕ → List (String × List ℕ)
  | [], key, i => [(key, [i])]
  | (k, is) :: rest, key, i =>
    if k = key then (k, is ++ [i]) :: rest
    else (k, is) :: addToBlock rest key i

/-- Modelled from the spec (§4.5): the Blocking Index — every record with a
non-empty postal code joins bucket `postal:<code>`, every record with a
non-empty phonetic key joins bucket `phonetic:<key>`. -/
def buildBlocks (records : List VenueRecord) : List (String × List ℕ) :=
  records.enum.foldl
    (fun blocks p =>
      let blocks1 :=
        if present p.2.postal then
          addToBlock blocks ("postal:" ++ p.2.postal.getD "") p.1
        else blocks
      if phoneticKey p.2.name ≠ "" then
        addToBlock blocks1 ("phonetic:" ++ phoneticKey p.2.name) p.1
      else blocks1)
    []

/-- Resolution output (§3): one duplicate group per matched pair. -/
structure DuplicateGroup where
  canonical_id : String
  canonical_name : String
  duplicate_ids : List String
  similarity_score : ℚ
  merge_reason : String

/-- Resolver state: the global seen-pair set, the scorer invocations (pair
and score, in order), and the emitted groups. -/
structure ResolverState where
  seen : List (ℕ × ℕ)
  scored : List ((ℕ × ℕ) × ℚ)
  groups : List DuplicateGroup

/-- Placeholder record for out-of-range index accesses (never reached for
indices produced by the Blocking Index). -/
def defaultRecord : VenueRecord :=
  ⟨"", "", Option.none, Option.none, Option.none, Option.none, 0⟩

/-- Modelled from the spec (§4.6 step 4): emit a DuplicateGroup — the record
with the higher confidence score is canonical, ties keep the
first-encountered index. -/
def mkGroup (records : List VenueRecord) (i j : ℕ) (s : ℚ) : DuplicateGroup :=
  let a := records.getD i defaultRecord
  let b := records.getD j defaultRecord
  if a.confidence_score < b.confidence_score then
    ⟨b.id, b.name, [a.id], s, reason a b⟩
  else
    ⟨a.id, a.name, [b.id], s, reason a b⟩

/-- All unordered index pairs of a block, in iteration order. -/
def pairsOf : List ℕ → List (ℕ × ℕ)
  | [] => []
  | x :: xs => xs.map (fun y => (x, y)) ++ pairsOf xs

/-- Modelled from the spec (§4.6 steps 2–4): process one candidate pair — if
its unordered form was already compared, skip; otherwise mark it compared,
run the Pairwise Scorer, and emit a group when the score clears the
threshold. -/
def stepPair (records : List VenueRecord) (threshold : ℚ)
    (st : ResolverState) (p : ℕ × ℕ) : ResolverState :=
  if p ∈ st.seen ∨ (p.2, p.1) ∈ st.seen then st
  else
    let s := score (records.getD p.1 defaultRecord) (records.getD p.2 defaultRecord)
    { seen := st.seen ++ [p]
      scored := st.scored ++ [(p, s)]
      groups := st.groups ++ (if threshold ≤ s then [mkGroup records p.1 p.2 s] else []) }

/-- Modelled from the spec (§4.6 step 3): blocks with fewer than 2 members
are skipped; otherwise every unordered member pair is processed. -/
def processBlock (records : List VenueRecord) (threshold : ℚ)
    (st : ResolverState) (members : List ℕ) : ResolverState :=
  if 2 ≤ members.length then (pairsOf members).foldl (stepPair records threshold) st
  else st

/-- Modelled from the spec (§4.6): one resolution run over all blocks. -/
def resolveRun (records : List VenueRecord) (threshold : ℚ) : ResolverState :=
  (buildBlocks records).foldl
    (fun st b => processBlock records threshold st b.2) ⟨[], [], []⟩

/-- Modelled from the spec (§4.6): `resolve(records, threshold)` — the
emitted DuplicateGroups. -/
def resolve (records : List VenueRecord) (threshold : ℚ) : List DuplicateGroup :=
  (resolveRun records threshold).groups

/-- Number of scorer invocations on the unordered pair `{i, j}`. -/
def unorderedCount (l : List ((ℕ × ℕ) × ℚ)) (i j : ℕ) : ℕ :=
  l.countP (fun e => decide (e.1 = (i, j) ∨ e.1 = (j, i)))

/-- A record with every optional field missing. -/
def bareRecord : VenueRecord :=
  ⟨"r1", "abc", Option.none, Option.none, Option.none, Option.none, 1/2⟩

/-- A pair of records sharing one block whose key carries the given tag. -/
def sharesTaggedBlock (records : List VenueRecord) (tag : String) (i j : ℕ) : Prop :=
  ∃ b ∈ buildBlocks records, (∃ code, b.1 = tag ++ code) ∧ i ∈ b.2 ∧ j ∈ b.2

/-- Two records sharing postal code `039596` and phonetic key `abc`. -/
def dupRecordA : VenueRecord :=
  ⟨"a", "abc", Option.none, some "039596", Option.none, Option.none, 1/2⟩

/-- Second record of the shared-blocks pair. -/
def dupRecordB : VenueRecord :=
  ⟨"b", "abc", Option.none, some "039596", Option.none, Option.none, 3/4⟩

/-! ## Theorems -/

lemma pyRound_le (q : ℚ) (B : ℤ) (hq : q ≤ (B : ℚ)) : pyRound q ≤ B := by
  have hfl : ⌊q⌋ ≤ B := by
    have := Int.floor_le_floor hq
    simpa using this
  have hflq : (⌊q⌋ : ℚ) ≤ q := Int.floor_le q
  unfold pyRound
  split_ifs with h1 h2 h3
  · exact hfl
  · have hlt : ⌊q⌋ < B := by
      push_neg at h1
      have : (⌊q⌋ : ℚ) + 1/2 ≤ (B : ℚ) := by linarith
      by_contra hcon
      push_neg at hcon
      have : (B : ℚ) ≤ (⌊q⌋ : ℚ) := by exact_mod_cast hcon
      linarith
    omega
  · exact hfl
  · have hlt : ⌊q⌋ < B := by
      push_neg at h1
      have : (⌊q⌋ : ℚ) + 1/2 ≤ (B : ℚ) := by linarith
      by_contra hcon
      push_neg at hcon
      have : (B : ℚ) ≤ (⌊q⌋ : ℚ) := by exact_mod_cast hcon
      linarith
    omega

lemma pyRound_nonneg (q : ℚ) (hq : 0 ≤ q) : 0 ≤ pyRound q := by
  have hfl : 0 ≤ ⌊q⌋ := Int.floor_nonneg.mpr hq
  unfold pyRound
  split_ifs <;> omega

lemma round2_mem_unit (q : ℚ) (h0 : 0 ≤ q) (h1 : q ≤ 1) :
    0 ≤ round2 q ∧ round2 q ≤ 1 := by
  unfold round2
  constructor
  · have := pyRound_nonneg (q * 100) (by linarith)
    positivity
  · have hle : pyRound (q * 100) ≤ (100 : ℤ) := by
      apply pyRound_le
      push_cast
      linarith
    rw [div_le_one (by norm_num)]
    exact_mod_cast hle

lemma filledCount_le (venue : PyVal) (fields : List String) :
    filledCount venue fields ≤ fields.length :=
  List.countP_le_length _

/-- C1: for every venue dictionary, `_calculate_confidence_score` returns a
value in the closed interval [0, 1]. -/
theorem confidence_score_mem_unit_interval (venue : PyVal) :
    0 ≤ calculate_confidence_score venue ∧ calculate_confidence_score venue ≤ 1 := by
  have hc : (filledCount venue critical_fields : ℚ) ≤ 5 := by
    exact_mod_cast filledCount_le venue critical_fields
  have hh : (filledCount venue high_fields : ℚ) ≤ 5 := by
    exact_mod_cast filledCount_le venue high_fields
  have hm : (filledCount venue medium_fields : ℚ) ≤ 4 := by
    exact_mod_cast filledCount_le venue medium_fields
  have hl : (filledCount venue low_fields : ℚ) ≤ 2 := by
    exact_mod_cast filledCount_le venue low_fields
  have hc0 : (0:ℚ) ≤ (filledCount venue critical_fields : ℚ) := Nat.cast_nonneg _
  have hh0 : (0:ℚ) ≤ (filledCount venue high_fields : ℚ) := Nat.cast_nonneg _
  have hm0 : (0:ℚ) ≤ (filledCount venue medium_fields : ℚ) := Nat.cast_nonneg _
  have hl0 : (0:ℚ) ≤ (filledCount venue low_fields : ℚ) := Nat.cast_nonneg _
  have hlen : ((critical_fields.length : ℚ) = 5) ∧ ((high_fields.length : ℚ) = 5)
      ∧ ((medium_fields.length : ℚ) = 4) ∧ ((low_fields.length : ℚ) = 2) := by
    refine ⟨?_, ?_, ?_, ?_⟩ <;> simp [critical_fields, high_fields, medium_fields, low_fields]
  obtain ⟨e1, e2, e3, e4⟩ := hlen
  unfold calculate_confidence_score
  rw [e1, e2, e3, e4]
  apply round2_mem_unit
  · positivity
  · linarith

/-- C8: `VenueService.search` returns at most 10 venues, sorted by rating in
non-increasing order, and every returned venue passes the capacity, minimum
tables, per-table price cap and minimum spend checks. -/
theorem search_spec (venues : List Venue) (guest_count : ℕ) (total_budget : ℚ)
    (location_zone : Option String) (max_price_per_table : Option ℚ)
    (hg : 1 ≤ guest_count) :
    (search venues guest_count total_budget location_zone max_price_per_table).length ≤ 10 ∧
    (search venues guest_count total_budget location_zone max_price_per_table).Pairwise
      (fun a b => ratingOf b ≤ ratingOf a) ∧
    ∀ v ∈ search venues guest_count total_budget location_zone max_price_per_table,
      (guest_count : ℤ) ≤ maxCapacityOf v ∧
      minTablesOf v ≤ (tablesNeeded guest_count : ℤ) ∧
      pricePerTableOf v ≤ effectiveMaxPrice guest_count total_budget max_price_per_table ∧
      minSpendOf v ≤ total_budget := by
  refine ⟨?_, ?_, ?_⟩
  · simp [search]
  · have hs : (List.mergeSort
        (venues.filter (searchFilter guest_count total_budget location_zone
          (effectiveMaxPrice guest_count total_budget max_price_per_table)))
        (fun a b => decide (ratingOf b ≤ ratingOf a))).Pairwise
        (fun a b => decide (ratingOf b ≤ ratingOf a) = true) := by
      apply List.sorted_mergeSort
      · intro a b c hab hbc
        simp only [decide_eq_true_eq] at *
        exact le_trans hbc hab
      · intro a b
        simp only [Bool.or_eq_true, decide_eq_true_eq]
        exact le_total (ratingOf b) (ratingOf a)
    have hp : (search venues guest_count total_budget location_zone
        max_price_per_table).Pairwise (fun a b => decide (ratingOf b ≤ ratingOf a) = true) :=
      hs.sublist (List.take_sublist _ _)
    exact hp.imp (fun h => by simpa using h)
  · intro v hv
    have hv' : v ∈ venues.filter (searchFilter guest_count total_budget location_zone
        (effectiveMaxPrice guest_count total_budget max_price_per_table)) := by
      have h1 := List.mem_of_mem_take hv
      rwa [List.mem_mergeSort] at h1
    have hpred := (List.mem_filter.mp hv').2
    simp only [searchFilter, Bool.and_eq_true, decide_eq_true_eq] at hpred
    exact ⟨hpred.1.1.1.1, hpred.1.1.1.2, hpred.1.1.2, hpred.1.2⟩

/-- Concrete instantiation of `search_spec`. -/
theorem search_spec_witness :
    (1 ≤ 50) ∧
    ((search [] 50 30000 Option.none Option.none).length ≤ 10 ∧
    (search [] 50 30000 Option.none Option.none).Pairwise (fun a b => ratingOf b ≤ ratingOf a) ∧
    ∀ v ∈ search [] 50 30000 Option.none Option.none,
      (50 : ℤ) ≤ maxCapacityOf v ∧
      minTablesOf v ≤ (tablesNeeded 50 : ℤ) ∧
      pricePerTableOf v ≤ effectiveMaxPrice 50 30000 Option.none ∧
      minSpendOf v ≤ 30000) :=
  ⟨by decide, search_spec [] 50 30000 Option.none Option.none (by decide)⟩

/-- C9: `calculate_total_cost` fails with a division by zero exactly when
`guest_count = 0`, and returns normally for every `guest_count ≥ 1`; the
`tables_needed` computation does not protect the final division. -/
theorem calculate_total_cost_div_by_zero (venue : Venue) (package_name : Option String) :
    calculate_total_cost venue 0 package_name = Option.none ∧
    ∀ guest_count : ℕ, 1 ≤ guest_count →
      (calculate_total_cost venue guest_count package_name).isSome := by
  constructor
  · simp [calculate_total_cost, pyDiv]
  · intro gc hgc
    have hne : ((gc : ℚ)) ≠ 0 := by
      simp only [ne_eq, Nat.cast_eq_zero]
      omega
    simp [calculate_total_cost, pyDiv, hne]

/-- Concrete instantiation of `calculate_total_cost_div_by_zero`. -/
theorem calculate_total_cost_div_by_zero_witness :
    (calculate_total_cost ⟨Option.none, Option.none, Option.none, Option.none, Option.none⟩
        0 Option.none = Option.none ∧
      ∀ guest_count : ℕ, 1 ≤ guest_count →
        (calculate_total_cost ⟨Option.none, Option.none, Option.none, Option.none, Option.none⟩
          guest_count Option.none).isSome) ∧
    (calculate_total_cost ⟨Option.none, Option.none, Option.none, Option.none, Option.none⟩
        100 Option.none).isSome :=
  ⟨calculate_total_cost_div_by_zero _ _,
   (calculate_total_cost_div_by_zero
      ⟨Option.none, Option.none, Option.none, Option.none, Option.none⟩ Option.none).2
      100 (by decide)⟩

lemma asStrList_map_str (l : List String) : asStrList (.list (l.map .str)) = some l := by
  simp only [asStrList]
  induction l with
  | nil => rfl
  | cons x xs ih =>
    simp only [List.map_cons, List.mapM_cons, asStr, ih, Option.pure_def,
      Option.bind_eq_bind, Option.some_bind]

lemma decodeSearchQuery_toDict (q : SearchQuery) :
    decodeSearchQuery (SearchQuery.toDict q) = some q := rfl

lemma mapM_loop_decode_toDict (l : List SearchQuery) (acc : List SearchQuery) :
    List.mapM.loop decodeSearchQuery (l.map SearchQuery.toDict) acc
      = some (acc.reverse ++ l) := by
  induction l generalizing acc with
  | nil => simp [List.mapM.loop]
  | cons x xs ih =>
    simp [List.mapM.loop, decodeSearchQuery_toDict, ih]

lemma mapM_decode_toDict (l : List SearchQuery) :
    (l.map SearchQuery.toDict).mapM decodeSearchQuery = some l := by
  simpa [List.mapM] using mapM_loop_decode_toDict l []

lemma jobStatusOfValue_value (st : JobStatus) : jobStatusOfValue st.value = some st := by
  cases st <;> rfl

lemma padNum_length (w n : ℕ) : w ≤ (padNum w n).length := by
  have h : (String.mk (List.replicate (w - (toString n).length) '0')).length
      = w - (toString n).length := by
    show (List.replicate (w - (toString n).length) '0').length = _
    simp
  rw [padNum, String.length_append, h]
  omega

lemma isoformat_ne_empty (d : Datetime) : isoformat d ≠ "" := by
  intro h
  have hlen := congrArg String.length h
  simp only [isoformat, String.length_append] at hlen
  have h1 := padNum_length 4 d.year
  have h0 : ("" : String).length = 0 := rfl
  omega

lemma decodeCreatedAt_iso (now d : Datetime) (h : dtRoundtrips d) :
    decodeCreatedAt now (some (.str (isoformat d))) = some d := by
  simp only [dtRoundtrips] at h
  simp [decodeCreatedAt, PyVal.truthy, isoformat_ne_empty d, asStr, h]

lemma decodeOptDt_optDtVal (o : Option Datetime) (h : optDtRoundtrips o) :
    decodeOptDt (some (optDtVal o)) = some o := by
  cases o with
  | none => rfl
  | some d =>
    simp only [optDtRoundtrips, dtRoundtrips] at h
    simp [decodeOptDt, optDtVal, PyVal.truthy, isoformat_ne_empty d, asStr, h]

lemma decodeOptFloat_optFloatVal (o : Option ℚ) :
    decodeOptFloat (some (optFloatVal o)) = some o := by
  cases o <;> rfl

lemma decodeOptStr_optStrVal (o : Option String) :
    decodeOptStr (some (optStrVal o)) = some o := by
  cases o <;> rfl

/-- C10: serialization of research jobs round-trips — for every
`VenueResearchJob` whose datetimes survive ISO formatting,
`from_dict (to_dict j)` restores `j` field for field. -/
theorem venue_research_job_roundtrip (now : Datetime) (j : VenueResearchJob)
    (h1 : dtRoundtrips j.created_at)
    (h2 : optDtRoundtrips j.started_at)
    (h3 : optDtRoundtrips j.completed_at) :
    VenueResearchJob.from_dict now (VenueResearchJob.to_dict j) = some j := by
  obtain ⟨vid, vname, mf, sqs, st, cr, sa, ca, cb, cfa, ed, em⟩ := j
  simp only [VenueResearchJob.from_dict, VenueResearchJob.to_dict, List.lookup]
  simp [asStrList_map_str, mapM_decode_toDict, mapM_loop_decode_toDict,
    jobStatusOfValue_value, asStr, asFloat,
    decodeCreatedAt_iso now cr h1, decodeOptDt_optDtVal sa h2, decodeOptDt_optDtVal ca h3,
    decodeOptFloat_optFloatVal, decodeOptStr_optStrVal]

/-- Concrete instantiation of `venue_research_job_roundtrip`. -/
theorem venue_research_job_roundtrip_witness :
    fromisoformat (isoformat sampleJob.created_at) = some sampleJob.created_at ∧
    VenueResearchJob.from_dict ⟨2025, 1, 1, 0, 0, 0, 0⟩ (VenueResearchJob.to_dict sampleJob)
      = some sampleJob :=
  ⟨by unfold sampleJob; decide,
   venue_research_job_roundtrip ⟨2025, 1, 1, 0, 0, 0, 0⟩ sampleJob
     (by unfold dtRoundtrips sampleJob; decide)
     (by unfold optDtRoundtrips dtRoundtrips sampleJob; decide)
     (by unfold optDtRoundtrips sampleJob; trivial)⟩

/-! ### Phonetic key (C5) -/

/-- C5: the phonetic key is at most 8 characters, and an empty normalized
name yields the empty key. -/
theorem phoneticKey_spec (s : String) :
    (phoneticKey s).length ≤ 8 ∧ (normalize s = "" → phoneticKey s = "") := by
  constructor
  · rw [phoneticKey]
    cases h : (normalize s).data with
    | nil => decide
    | cons c rest =>
      show (String.mk (List.take 8 (c :: phonTail rest c))).length ≤ 8
      have : (String.mk (List.take 8 (c :: phonTail rest c))).length
          = (List.take 8 (c :: phonTail rest c)).length := rfl
      rw [this]
      simp
  · intro h
    have hd : (normalize s).data = [] := by rw [h]
    rw [phoneticKey, hd]

/-- Concrete instantiation of `phoneticKey_spec`. -/
theorem phoneticKey_spec_witness :
    (phoneticKey "Grand Hyatt").length ≤ 8 ∧ normalize "" = "" ∧ phoneticKey "" = "" :=
  ⟨(phoneticKey_spec "Grand Hyatt").1, by decide, (phoneticKey_spec "").2 (by decide)⟩

/-! ### Normalization idempotence (C6) -/

/-- C6 counterexample: suffix stripping runs before punctuation removal, so a
stopword that only materializes once punctuation is removed survives one
normalization pass and is stripped by the next — `normalize` is not
idempotent. -/
theorem normalize_not_idempotent :
    normalize "ho.tel" = "hotel" ∧ normalize "hotel" = "" ∧
    normalize (normalize "ho.tel") ≠ normalize "ho.tel" := by decide

lemma splitOnChar_mem (c : Char) (l : List Char) (w : List Char)
    (hw : w ∈ splitOnChar c l) : ∀ x ∈ w, x ∈ l ∧ x ≠ c := by
  induction l generalizing w with
  | nil =>
    simp only [splitOnChar, List.mem_singleton] at hw
    subst hw
    intro x hx
    simp at hx
  | cons y ys ih =>
    intro x hx
    by_cases hyc : y = c
    · simp only [splitOnChar, hyc, if_true] at hw
      rcases List.mem_cons.mp hw with h | h
      · subst h; simp at hx
      · have := ih w h x hx
        exact ⟨List.mem_cons_of_mem _ this.1, this.2⟩
    · simp only [splitOnChar, hyc, if_false] at hw
      cases hsp : splitOnChar c ys with
      | nil =>
        rw [hsp] at hw
        simp only [List.mem_singleton] at hw
        subst hw
        simp only [List.mem_singleton] at hx
        subst hx
        exact ⟨List.mem_cons_self _ _, hyc⟩
      | cons zs rest =>
        rw [hsp] at hw
        rcases List.mem_cons.mp hw with h | h
        · subst h
          rcases List.mem_cons.mp hx with h | h
          · subst h; exact ⟨List.mem_cons_self _ _, hyc⟩
          · have hzs : zs ∈ splitOnChar c ys := by rw [hsp]; exact List.mem_cons_self _ _
            have := ih zs hzs x h
            exact ⟨List.mem_cons_of_mem _ this.1, this.2⟩
        · have hmem : w ∈ splitOnChar c ys := by rw [hsp]; exact List.mem_cons_of_mem _ h
          have := ih w hmem x hx
          exact ⟨List.mem_cons_of_mem _ this.1, this.2⟩

lemma splitOnChar_no_sep (c : Char) (l : List Char) (h : c ∉ l) :
    splitOnChar c l = [l] := by
  induction l with
  | nil => rfl
  | cons y ys ih =>
    have hyc : y ≠ c := fun he => h (he ▸ List.mem_cons_self _ _)
    have hys : c ∉ ys := fun hm => h (List.mem_cons_of_mem _ hm)
    simp only [splitOnChar, hyc, if_false, ih hys]

lemma splitOnChar_append_sep (c : Char) (w rest : List Char) (hw : c ∉ w) :
    splitOnChar c (w ++ c :: rest) = w :: splitOnChar c rest := by
  induction w with
  | nil => simp [splitOnChar]
  | cons y ys ih =>
    have hyc : y ≠ c := fun he => hw (he ▸ List.mem_cons_self _ _)
    have hys : c ∉ ys := fun hm => hw (List.mem_cons_of_mem _ hm)
    have hne : splitOnChar c (ys ++ c :: rest) = ys :: splitOnChar c rest := ih hys
    simp only [List.cons_append, splitOnChar, hyc, if_false]
    have happ : ys.append (c :: rest) = ys ++ c :: rest := rfl
    rw [happ, hne]

lemma splitOnChar_joinWords (ws : List (List Char))
    (h1 : ∀ w ∈ ws, w ≠ []) (h2 : ∀ w ∈ ws, ' ' ∉ w) :
    (splitOnChar ' ' (joinWords ws)).filter (fun w => w ≠ []) = ws := by
  induction ws with
  | nil => simp [joinWords, splitOnChar]
  | cons w ws ih =>
    cases ws with
    | nil =>
      have hw : ' ' ∉ w := h2 w (List.mem_cons_self _ _)
      have hne : w ≠ [] := h1 w (List.mem_cons_self _ _)
      simp [joinWords, splitOnChar_no_sep ' ' w hw, hne]
    | cons w2 ws2 =>
      have hw : ' ' ∉ w := h2 w (List.mem_cons_self _ _)
      have hne : w ≠ [] := h1 w (List.mem_cons_self _ _)
      have hjoin : joinWords (w :: w2 :: ws2) = w ++ ' ' :: joinWords (w2 :: ws2) := rfl
      rw [hjoin, splitOnChar_append_sep ' ' w _ hw]
      have ihr := ih (fun x hx => h1 x (List.mem_cons_of_mem _ hx))
        (fun x hx => h2 x (List.mem_cons_of_mem _ hx))
      simp only [List.filter_cons, hne, decide_eq_true_eq, if_true]
      rw [ihr]
      simp [hne]

lemma mem_joinWords (ws : List (List Char)) (x : Char) (hx : x ∈ joinWords ws) :
    (∃ w ∈ ws, x ∈ w) ∨ x = ' ' := by
  induction ws with
  | nil => simp [joinWords] at hx
  | cons w ws ih =>
    cases ws with
    | nil =>
      simp only [joinWords] at hx
      exact Or.inl ⟨w, List.mem_cons_self _ _, hx⟩
    | cons w2 ws2 =>
      have hjoin : joinWords (w :: w2 :: ws2) = w ++ ' ' :: joinWords (w2 :: ws2) := rfl
      rw [hjoin] at hx
      rcases List.mem_append.mp hx with h | h
      · exact Or.inl ⟨w, List.mem_cons_self _ _, h⟩
      · rcases List.mem_cons.mp h with h | h
        · exact Or.inr h
        · rcases ih h with ⟨w', hw', hxw⟩ | h
          · exact Or.inl ⟨w', List.mem_cons_of_mem _ hw', hxw⟩
          · exact Or.inr h

lemma wordsOf_nonempty (l : List Char) (w : List Char) (hw : w ∈ wordsOf l) :
    w ≠ [] := by
  simp only [wordsOf, List.mem_filter, decide_eq_true_eq] at hw
  exact hw.2

lemma wordsOf_no_space (l : List Char) (w : List Char) (hw : w ∈ wordsOf l) :
    ' ' ∉ w := by
  simp only [wordsOf, List.mem_filter] at hw
  intro hx
  exact (splitOnChar_mem ' ' _ w hw.1 ' ' hx).2 rfl

lemma wordsOf_kept (l : List Char) (w : List Char) (hw : w ∈ wordsOf l) :
    ∀ x ∈ w, isKeptChar x = true := by
  simp only [wordsOf, List.mem_filter] at hw
  intro x hx
  have hmem := (splitOnChar_mem ' ' _ w hw.1 x hx).1
  exact (List.mem_filter.mp hmem).2

lemma normalizeList_kept (l : List Char) : ∀ x ∈ normalizeList l, isKeptChar x = true := by
  intro x hx
  rcases mem_joinWords _ x hx with ⟨w, hw, hxw⟩ | h
  · exact wordsOf_kept l w hw x hxw
  · subst h; decide

lemma lowerChar_kept (x : Char) (h : isKeptChar x = true) : lowerChar x = x := by
  simp only [isKeptChar, Bool.or_eq_true, decide_eq_true_eq] at h
  rw [lowerChar, if_neg]
  omega

lemma map_lowerChar_id (l : List Char) (h : ∀ x ∈ l, isKeptChar x = true) :
    l.map lowerChar = l := by
  induction l with
  | nil => rfl
  | cons y ys ih =>
    simp only [List.map_cons]
    rw [lowerChar_kept y (h y (List.mem_cons_self _ _)),
      ih (fun x hx => h x (List.mem_cons_of_mem _ hx))]

set_option maxHeartbeats 1000000 in
/-- C6 amended: normalization is idempotent on every string whose normalized
form the stopword-stripping pass leaves unchanged (in general the pass can
strip a stopword that only materialized after punctuation removal, so
idempotence fails — see `normalize_not_idempotent`). -/
theorem normalize_idempotent_of_strip_fixed (s : String)
    (h : stripStopwordsList (normalize s).data = (normalize s).data) :
    normalize (normalize s) = normalize s := by
  have hkept := normalizeList_kept s.data
  have h' : stripStopwordsList (normalizeList s.data) = normalizeList s.data := h
  have hlower : (normalizeList s.data).map lowerChar = normalizeList s.data :=
    map_lowerChar_id _ hkept
  have hfilter : (normalizeList s.data).filter isKeptChar = normalizeList s.data :=
    List.filter_eq_self.mpr (fun a ha => hkept a ha)
  have hsplit : (splitOnChar ' ' (normalizeList s.data)).filter (fun w => w ≠ [])
      = wordsOf s.data :=
    splitOnChar_joinWords (wordsOf s.data)
      (fun w hw => wordsOf_nonempty s.data w hw)
      (fun w hw => wordsOf_no_space s.data w hw)
  show String.mk (normalizeList (normalizeList s.data)) = String.mk (normalizeList s.data)
  congr 1
  calc normalizeList (normalizeList s.data)
      = joinWords ((splitOnChar ' '
          ((stripStopwordsList ((normalizeList s.data).map lowerChar)).filter
            isKeptChar)).filter (fun w => w ≠ [])) := rfl
    _ = joinWords (wordsOf s.data) := by rw [hlower, h', hfilter, hsplit]
    _ = normalizeList s.data := rfl

/-- Concrete instantiation of `normalize_idempotent_of_strip_fixed`. -/
theorem normalize_idempotent_witness :
    stripStopwordsList (normalize "Grand Plaza!").data = (normalize "Grand Plaza!").data ∧
    normalize (normalize "Grand Plaza!") = normalize "Grand Plaza!" :=
  ⟨by decide, normalize_idempotent_of_strip_fixed "Grand Plaza!" (by decide)⟩

/-! ### Graceful degradation (C7) -/

/-- C7: the resolver's scoring degrades gracefully — a missing address,
phone, website or postal code makes the corresponding signal contribute
exactly 0 to the composite score, which is always the plain total of the
five signal terms (no failure path exists). -/
theorem score_degrades_gracefully (a b : VenueRecord) :
    ((a.address = Option.none ∨ b.address = Option.none) → addressTerm a b = 0) ∧
    ((a.phone = Option.none ∨ b.phone = Option.none) → phoneTerm a b = 0) ∧
    ((a.website = Option.none ∨ b.website = Option.none) → websiteTerm a b = 0) ∧
    ((a.postal = Option.none ∨ b.postal = Option.none) → postalTerm a b = 0) ∧
    score a b = nameTerm a b + addressTerm a b + phoneTerm a b
      + websiteTerm a b + postalTerm a b := by
  refine ⟨?_, ?_, ?_, ?_, rfl⟩
  · rintro (h | h) <;> simp [addressTerm, h, present]
  · rintro (h | h) <;> simp [phoneTerm, h, present]
  · rintro (h | h) <;> simp [websiteTerm, h, present]
  · rintro (h | h) <;> simp [postalTerm, h, present]

/-- Concrete instantiation of `score_degrades_gracefully`. -/
theorem score_degrades_gracefully_witness :
    addressTerm bareRecord bareRecord = 0 ∧ phoneTerm bareRecord bareRecord = 0 ∧
    websiteTerm bareRecord bareRecord = 0 ∧ postalTerm bareRecord bareRecord = 0 :=
  ⟨(score_degrades_gracefully bareRecord bareRecord).1 (Or.inl rfl),
   (score_degrades_gracefully bareRecord bareRecord).2.1 (Or.inl rfl),
   (score_degrades_gracefully bareRecord bareRecord).2.2.1 (Or.inl rfl),
   (score_degrades_gracefully bareRecord bareRecord).2.2.2.1 (Or.inl rfl)⟩

/-! ### Scorer symmetry (C3) -/

lemma matchClass_swap_aux (w : ℕ) : ∀ (n : ℕ) (A B : List ℕ), A.length + B.length ≤ n →
    matchClass w B A = (matchClass w A B).map Prod.swap := by
  intro n
  induction n with
  | zero =>
    intro A B h
    cases A with
    | nil => cases B <;> simp [matchClass]
    | cons a as => simp at h
  | succ n ih =>
    intro A B h
    cases A with
    | nil => cases B <;> simp [matchClass]
    | cons a as =>
      cases B with
      | nil => simp [matchClass]
      | cons b bs =>
        simp only [List.length_cons] at h
        by_cases h1 : b + w < a
        · have h2 : ¬ (a + w < b) := by omega
          simp only [matchClass, if_pos h1, if_neg h2]
          exact ih (a :: as) bs (by simp; omega)
        · by_cases h2 : a + w < b
          · simp only [matchClass, if_pos h2, if_neg h1]
            exact ih as (b :: bs) (by simp; omega)
          · simp only [matchClass, if_neg h1, if_neg h2, List.map_cons, Prod.swap_prod_mk]
            rw [ih as bs (by omega)]

lemma matchClass_swap (w : ℕ) (A B : List ℕ) :
    matchClass w B A = (matchClass w A B).map Prod.swap :=
  matchClass_swap_aux w (A.length + B.length) A B le_rfl

lemma alphabet_comm (s1 s2 : List Char) : alphabet s2 s1 = alphabet s1 s2 := by
  simp [alphabet, List.toFinset_append, Finset.union_comm]

lemma matchedPairs_swap (w : ℕ) (s1 s2 : List Char) :
    matchedPairs w s2 s1 = (matchedPairs w s1 s2).map Prod.swap := by
  unfold matchedPairs
  rw [alphabet_comm, List.map_flatten]
  congr 1
  rw [List.map_map]
  apply List.map_congr_left
  intro c _
  simp only [Function.comp]
  exact matchClass_swap w (positions c s1) (positions c s2)

lemma map_fst_map_swap (P : List (ℕ × ℕ)) :
    (P.map Prod.swap).map Prod.fst = P.map Prod.snd := by
  simp [List.map_map, Function.comp]

lemma map_snd_map_swap (P : List (ℕ × ℕ)) :
    (P.map Prod.swap).map Prod.snd = P.map Prod.fst := by
  simp [List.map_map, Function.comp]

lemma seqL_swap (P : List (ℕ × ℕ)) (s : List Char) :
    seqL (P.map Prod.swap) s = seqR P s := by
  unfold seqL seqR
  simp only [map_fst_map_swap]

lemma seqR_swap (P : List (ℕ × ℕ)) (s : List Char) :
    seqR (P.map Prod.swap) s = seqL P s := by
  unfold seqL seqR
  simp only [map_snd_map_swap]

lemma decide_ne_comm (x y : Char) : decide (x ≠ y) = decide (y ≠ x) :=
  decide_eq_decide.mpr ne_comm

lemma mismatches_comm (l1 l2 : List Char) : mismatches l2 l1 = mismatches l1 l2 := by
  induction l1 generalizing l2 with
  | nil => cases l2 <;> rfl
  | cons x xs ih =>
    cases l2 with
    | nil => rfl
    | cons y ys =>
      simp only [mismatches, List.zip_cons_cons, List.countP_cons]
      have hrec : mismatches ys xs = mismatches xs ys := ih ys
      simp only [mismatches] at hrec
      rw [hrec]
      congr 1
      rw [decide_ne_comm]

lemma jaroWindow_comm (s1 s2 : List Char) : jaroWindow s2 s1 = jaroWindow s1 s2 := by
  unfold jaroWindow
  rw [Nat.max_comm s2.length s1.length]

lemma jaro_comm (s1 s2 : List Char) : jaro s2 s1 = jaro s1 s2 := by
  unfold jaro
  by_cases h0 : s1 = [] ∨ s2 = []
  · have h0' : s2 = [] ∨ s1 = [] := h0.symm
    rw [if_pos h0', if_pos h0]
  · have h0' : ¬ (s2 = [] ∨ s1 = []) := fun hh => h0 hh.symm
    rw [if_neg h0', if_neg h0]
    by_cases he : s1 = s2
    · subst he
      rfl
    · have he' : s2 ≠ s1 := fun hh => he hh.symm
      rw [if_neg he', if_neg he]
      have hP : matchedPairs (jaroWindow s2 s1) s2 s1
          = (matchedPairs (jaroWindow s1 s2) s1 s2).map Prod.swap := by
        rw [jaroWindow_comm]
        exact matchedPairs_swap _ s1 s2
      simp only [hP, List.length_map, seqL_swap, seqR_swap]
      by_cases hm : (matchedPairs (jaroWindow s1 s2) s1 s2).length = 0
      · rw [if_pos hm, if_pos hm]
      · rw [if_neg hm, if_neg hm, mismatches_comm]
        ring

lemma commonPrefixLen_comm : ∀ (a b : List Char), commonPrefixLen a b = commonPrefixLen b a
  | [], [] => rfl
  | [], _ :: _ => rfl
  | _ :: _, [] => rfl
  | x :: xs, y :: ys => by
    simp only [commonPrefixLen]
    by_cases h : x = y
    · subst h
      rw [if_pos rfl, if_pos rfl, commonPrefixLen_comm xs ys]
    · rw [if_neg h, if_neg (fun hh => h hh.symm)]

lemma jaroWinkler_comm (a b : String) : jaroWinkler a b = jaroWinkler b a := by
  unfold jaroWinkler
  by_cases h0 : (normalize a).data = [] ∨ (normalize b).data = []
  · have h0' : (normalize b).data = [] ∨ (normalize a).data = [] := h0.symm
    rw [if_pos h0', if_pos h0]
  · have h0' : ¬ ((normalize b).data = [] ∨ (normalize a).data = []) := fun hh => h0 hh.symm
    rw [if_neg h0', if_neg h0, jaro_comm, commonPrefixLen_comm]

lemma jaccardQ_comm (x y : Finset String) : jaccardQ x y = jaccardQ y x := by
  unfold jaccardQ
  by_cases h : x = ∅ ∨ y = ∅
  · have h' : y = ∅ ∨ x = ∅ := h.symm
    rw [if_pos h, if_pos h']
  · have h' : ¬ (y = ∅ ∨ x = ∅) := fun hh => h hh.symm
    rw [if_neg h, if_neg h', Finset.inter_comm, Finset.union_comm]

lemma tokenSetSim_comm (a b : String) : tokenSetSim a b = tokenSetSim b a :=
  jaccardQ_comm _ _

lemma addressSim_comm (a b : String) : addressSim a b = addressSim b a :=
  jaccardQ_comm _ _

lemma nameSim_comm (a b : String) : nameSim a b = nameSim b a := by
  unfold nameSim
  rw [tokenSetSim_comm, jaroWinkler_comm]

lemma phoneMatch_comm (a b : String) : phoneMatch a b = phoneMatch b a := by
  unfold phoneMatch
  apply decide_eq_decide.mpr
  constructor <;> rintro ⟨h1, h2, h3⟩ <;> exact ⟨h2, h1, h3.symm⟩

lemma websiteMatch_comm (a b : String) : websiteMatch a b = websiteMatch b a := by
  unfold websiteMatch
  apply decide_eq_decide.mpr
  constructor <;> rintro ⟨h1, h2, h3⟩ <;> exact ⟨h2, h1, h3.symm⟩

lemma nameTerm_comm (a b : VenueRecord) : nameTerm a b = nameTerm b a := by
  unfold nameTerm
  rw [nameSim_comm]

lemma addressTerm_comm (a b : VenueRecord) : addressTerm a b = addressTerm b a := by
  unfold addressTerm
  rw [Bool.and_comm (present a.address) (present b.address),
    addressSim_comm (a.address.getD "") (b.address.getD "")]

lemma phoneTerm_comm (a b : VenueRecord) : phoneTerm a b = phoneTerm b a := by
  unfold phoneTerm
  rw [Bool.and_comm (present a.phone) (present b.phone),
    phoneMatch_comm (a.phone.getD "") (b.phone.getD "")]

lemma websiteTerm_comm (a b : VenueRecord) : websiteTerm a b = websiteTerm b a := by
  unfold websiteTerm
  rw [Bool.and_comm (present a.website) (present b.website),
    websiteMatch_comm (a.website.getD "") (b.website.getD "")]

lemma decide_str_eq_comm (x y : String) : decide (x = y) = decide (y = x) :=
  decide_eq_decide.mpr eq_comm

lemma postalTerm_comm (a b : VenueRecord) : postalTerm a b = postalTerm b a := by
  unfold postalTerm
  rw [Bool.and_comm (present a.postal) (present b.postal),
    decide_str_eq_comm (a.postal.getD "") (b.postal.getD "")]

/-- C3: the Pairwise Scorer's composite score is symmetric. -/
theorem score_symmetric (a b : VenueRecord) : score a b = score b a := by
  unfold score
  rw [nameTerm_comm, addressTerm_comm, phoneTerm_comm, websiteTerm_comm, postalTerm_comm]

/-! ### Resolver invariants (C2, C4) -/

lemma stepPair_seen_mono (r : List VenueRecord) (t : ℚ) (st : ResolverState) (p : ℕ × ℕ) :
    st.seen ⊆ (stepPair r t st p).seen := by
  unfold stepPair
  split_ifs with h
  · exact fun x hx => hx
  · exact fun x hx => List.mem_append_left _ hx

lemma foldl_stepPair_seen_mono (r : List VenueRecord) (t : ℚ) :
    ∀ (l : List (ℕ × ℕ)) (st : ResolverState),
      st.seen ⊆ ((l.foldl (stepPair r t) st)).seen := by
  intro l
  induction l with
  | nil => intro st x hx; exact hx
  | cons a l ih =>
    intro st x hx
    rw [List.foldl_cons]
    exact ih (stepPair r t st a) (stepPair_seen_mono r t st a hx)

lemma stepPair_covers (r : List VenueRecord) (t : ℚ) (st : ResolverState) (p : ℕ × ℕ) :
    p ∈ (stepPair r t st p).seen ∨ (p.2, p.1) ∈ (stepPair r t st p).seen := by
  unfold stepPair
  split_ifs with h
  · exact h
  · left
    exact List.mem_append_right _ (by simp)

lemma foldl_stepPair_covers (r : List VenueRecord) (t : ℚ) (i j : ℕ) :
    ∀ (l : List (ℕ × ℕ)) (st : ResolverState), ((i, j) ∈ l ∨ (j, i) ∈ l) →
      (i, j) ∈ (l.foldl (stepPair r t) st).seen ∨
      (j, i) ∈ (l.foldl (stepPair r t) st).seen := by
  intro l
  induction l with
  | nil => intro st h; simp at h
  | cons a l ih =>
    intro st h
    rw [List.foldl_cons]
    by_cases ha : a = (i, j) ∨ a = (j, i)
    · have hmono := foldl_stepPair_seen_mono r t l (stepPair r t st a)
      rcases ha with ha | ha <;> subst ha <;>
        rcases stepPair_covers r t st _ with hc | hc
      · exact Or.inl (hmono hc)
      · exact Or.inr (hmono hc)
      · exact Or.inr (hmono hc)
      · exact Or.inl (hmono hc)
    · apply ih
      rcases h with h | h <;> rcases List.mem_cons.mp h with h' | h'
      · exact absurd (Or.inl h'.symm) ha
      · exact Or.inl h'
      · exact absurd (Or.inr h'.symm) ha
      · exact Or.inr h'

lemma two_mem_length {i j : ℕ} {l : List ℕ} (hi : i ∈ l) (hj : j ∈ l) (hij : i ≠ j) :
    2 ≤ l.length := by
  cases l with
  | nil => simp at hi
  | cons a l' =>
    cases l' with
    | nil =>
      simp only [List.mem_singleton] at hi hj
      exact absurd (hi.trans hj.symm) hij
    | cons b l'' => simp [List.length]

lemma pairsOf_mem {i j : ℕ} :
    ∀ (l : List ℕ), i ∈ l → j ∈ l → i ≠ j →
      (i, j) ∈ pairsOf l ∨ (j, i) ∈ pairsOf l := by
  intro l
  induction l with
  | nil => intro hi; simp at hi
  | cons x xs ih =>
    intro hi hj hij
    rcases List.mem_cons.mp hi with hix | hix
    · have hjx : j ∈ xs := by
        rcases List.mem_cons.mp hj with h | h
        · exact absurd (hix.trans h.symm) hij
        · exact h
      left
      unfold pairsOf
      exact List.mem_append_left _ (List.mem_map.mpr ⟨j, hjx, by rw [hix]⟩)
    · rcases List.mem_cons.mp hj with hjx | hjx
      · right
        unfold pairsOf
        exact List.mem_append_left _ (List.mem_map.mpr ⟨i, hix, by rw [hjx]⟩)
      · rcases ih hix hjx hij with h | h
        · left
          unfold pairsOf
          exact List.mem_append_right _ h
        · right
          unfold pairsOf
          exact List.mem_append_right _ h

lemma processBlock_covers (r : List VenueRecord) (t : ℚ) (st : ResolverState)
    (members : List ℕ) {i j : ℕ} (hi : i ∈ members) (hj : j ∈ members) (hij : i ≠ j) :
    (i, j) ∈ (processBlock r t st members).seen ∨
    (j, i) ∈ (processBlock r t st members).seen := by
  unfold processBlock
  rw [if_pos (two_mem_length hi hj hij)]
  exact foldl_stepPair_covers r t i j _ st (pairsOf_mem members hi hj hij)

lemma processBlock_seen_mono (r : List VenueRecord) (t : ℚ) (st : ResolverState)
    (members : List ℕ) : st.seen ⊆ (processBlock r t st members).seen := by
  unfold processBlock
  split_ifs
  · exact foldl_stepPair_seen_mono r t _ st
  · exact fun x hx => hx

lemma blocks_foldl_seen_mono (r : List VenueRecord) (t : ℚ) :
    ∀ (bs : List (String × List ℕ)) (st : ResolverState),
      st.seen ⊆ (bs.foldl (fun st b => processBlock r t st b.2) st).seen := by
  intro bs
  induction bs with
  | nil => intro st x hx; exact hx
  | cons c cs ih =>
    intro st x hx
    rw [List.foldl_cons]
    exact ih _ (processBlock_seen_mono r t st c.2 hx)

lemma blocks_foldl_covers (r : List VenueRecord) (t : ℚ) (i j : ℕ) :
    ∀ (bs : List (String × List ℕ)) (st : ResolverState) (b : String × List ℕ),
      b ∈ bs → i ∈ b.2 → j ∈ b.2 → i ≠ j →
      (i, j) ∈ (bs.foldl (fun st b => processBlock r t st b.2) st).seen ∨
      (j, i) ∈ (bs.foldl (fun st b => processBlock r t st b.2) st).seen := by
  intro bs
  induction bs with
  | nil => intro st b hb; simp at hb
  | cons c cs ih =>
    intro st b hb hi hj hij
    rw [List.foldl_cons]
    rcases List.mem_cons.mp hb with hb' | hb'
    · subst hb'
      have hcov := processBlock_covers r t st b.2 hi hj hij
      have hmono := blocks_foldl_seen_mono r t cs (processBlock r t st b.2)
      rcases hcov with hc | hc
      · exact Or.inl (hmono hc)
      · exact Or.inr (hmono hc)
    · exact ih _ b hb' hi hj hij

lemma stepPair_seenInv (r : List VenueRecord) (t : ℚ) (st : ResolverState) (p : ℕ × ℕ)
    (h1 : st.scored.map Prod.fst = st.seen)
    (h2 : st.seen.Pairwise (fun p q => ¬(q = p ∨ q = (p.2, p.1)))) :
    (stepPair r t st p).scored.map Prod.fst = (stepPair r t st p).seen ∧
    (stepPair r t st p).seen.Pairwise (fun p q => ¬(q = p ∨ q = (p.2, p.1))) := by
  unfold stepPair
  split_ifs with hmem
  · exact ⟨h1, h2⟩
  · push_neg at hmem
    constructor
    · simp [List.map_append, h1]
    · rw [List.pairwise_append]
      refine ⟨h2, List.pairwise_singleton _ _, ?_⟩
      intro x hx y hy
      simp only [List.mem_singleton] at hy
      subst hy
      rintro (he | he)
      · exact hmem.1 (he.symm ▸ hx)
      · refine hmem.2 ?_
        rw [he]
        simpa using hx

lemma foldl_stepPair_seenInv (r : List VenueRecord) (t : ℚ) :
    ∀ (l : List (ℕ × ℕ)) (st : ResolverState),
      st.scored.map Prod.fst = st.seen →
      st.seen.Pairwise (fun p q => ¬(q = p ∨ q = (p.2, p.1))) →
      (l.foldl (stepPair r t) st).scored.map Prod.fst = (l.foldl (stepPair r t) st).seen ∧
      (l.foldl (stepPair r t) st).seen.Pairwise (fun p q => ¬(q = p ∨ q = (p.2, p.1))) := by
  intro l
  induction l with
  | nil => intro st h1 h2; exact ⟨h1, h2⟩
  | cons a l ih =>
    intro st h1 h2
    rw [List.foldl_cons]
    have := stepPair_seenInv r t st a h1 h2
    exact ih _ this.1 this.2

lemma processBlock_seenInv (r : List VenueRecord) (t : ℚ) (st : ResolverState)
    (members : List ℕ)
    (h1 : st.scored.map Prod.fst = st.seen)
    (h2 : st.seen.Pairwise (fun p q => ¬(q = p ∨ q = (p.2, p.1)))) :
    (processBlock r t st members).scored.map Prod.fst = (processBlock r t st members).seen ∧
    (processBlock r t st members).seen.Pairwise
      (fun p q => ¬(q = p ∨ q = (p.2, p.1))) := by
  unfold processBlock
  split_ifs
  · exact foldl_stepPair_seenInv r t _ st h1 h2
  · exact ⟨h1, h2⟩

lemma resolveRun_seenInv (records : List VenueRecord) (t : ℚ) :
    (resolveRun records t).scored.map Prod.fst = (resolveRun records t).seen ∧
    (resolveRun records t).seen.Pairwise (fun p q => ¬(q = p ∨ q = (p.2, p.1))) := by
  unfold resolveRun
  generalize buildBlocks records = bs
  have : ∀ (bs : List (String × List ℕ)) (st : ResolverState),
      st.scored.map Prod.fst = st.seen →
      st.seen.Pairwise (fun p q => ¬(q = p ∨ q = (p.2, p.1))) →
      (bs.foldl (fun st b => processBlock records t st b.2) st).scored.map Prod.fst
        = (bs.foldl (fun st b => processBlock records t st b.2) st).seen ∧
      (bs.foldl (fun st b => processBlock records t st b.2) st).seen.Pairwise
        (fun p q => ¬(q = p ∨ q = (p.2, p.1))) := by
    intro bs
    induction bs with
    | nil => intro st h1 h2; exact ⟨h1, h2⟩
    | cons c cs ih =>
      intro st h1 h2
      rw [List.foldl_cons]
      have := processBlock_seenInv records t st c.2 h1 h2
      exact ih _ this.1 this.2
  exact this bs ⟨[], [], []⟩ rfl (List.Pairwise.nil)

lemma countP_pair_le_one (i j : ℕ) :
    ∀ (l : List (ℕ × ℕ)),
      l.Pairwise (fun p q => ¬(q = p ∨ q = (p.2, p.1))) →
      l.countP (fun p => decide (p = (i, j) ∨ p = (j, i))) ≤ 1 := by
  intro l
  induction l with
  | nil => intro; simp
  | cons a l ih =>
    intro hp
    rw [List.countP_cons]
    rcases List.pairwise_cons.mp hp with ⟨ha, htail⟩
    by_cases hQ : a = (i, j) ∨ a = (j, i)
    · have hzero : l.countP (fun p => decide (p = (i, j) ∨ p = (j, i))) = 0 := by
        rw [List.countP_eq_zero]
        intro q hq hQq
        simp only [decide_eq_true_eq] at hQq
        apply ha q hq
        rcases hQ with h | h <;> rcases hQq with h' | h'
        · exact Or.inl (h'.trans h.symm)
        · refine Or.inr ?_
          rw [h, h']
        · refine Or.inr ?_
          rw [h, h']
        · exact Or.inl (h'.trans h.symm)
      rw [hzero]
      simp [hQ]
    · have hfalse : (decide (a = (i, j) ∨ a = (j, i))) = false :=
        decide_eq_false hQ
      rw [hfalse]
      simpa using ih htail

/-- C2: one resolution run invokes the Pairwise Scorer at most once per
unordered pair of record indices; in particular two distinct records sharing
both a postal-code block and a phonetic-key block are scored exactly once. -/
theorem scorer_once_per_pair (records : List VenueRecord) (t : ℚ) (i j : ℕ) :
    unorderedCount (resolveRun records t).scored i j ≤ 1 ∧
    (i ≠ j →
      sharesTaggedBlock records "postal:" i j →
      sharesTaggedBlock records "phonetic:" i j →
      unorderedCount (resolveRun records t).scored i j = 1) := by
  obtain ⟨h1, h2⟩ := resolveRun_seenInv records t
  have hcount : unorderedCount (resolveRun records t).scored i j
      = (resolveRun records t).seen.countP (fun p => decide (p = (i, j) ∨ p = (j, i))) := by
    rw [← h1, List.countP_map]
    rfl
  have hle : unorderedCount (resolveRun records t).scored i j ≤ 1 := by
    rw [hcount]
    exact countP_pair_le_one i j _ h2
  refine ⟨hle, ?_⟩
  rintro hij ⟨b, hb, _, hbi, hbj⟩ _
  have hmem : (i, j) ∈ (resolveRun records t).seen ∨ (j, i) ∈ (resolveRun records t).seen := by
    unfold resolveRun
    exact blocks_foldl_covers records t i j (buildBlocks records) ⟨[], [], []⟩ b hb hbi hbj hij
  have hpos : 0 < unorderedCount (resolveRun records t).scored i j := by
    rw [hcount, List.countP_pos_iff]
    rcases hmem with hm | hm
    · exact ⟨(i, j), hm, by simp⟩
    · exact ⟨(j, i), hm, by simp⟩
  omega

/-- Concrete instantiation of `scorer_once_per_pair`. -/
theorem scorer_once_per_pair_witness :
    (0 : ℕ) ≠ 1 ∧
    sharesTaggedBlock [dupRecordA, dupRecordB] "postal:" 0 1 ∧
    sharesTaggedBlock [dupRecordA, dupRecordB] "phonetic:" 0 1 ∧
    unorderedCount (resolveRun [dupRecordA, dupRecordB] (3/4)).scored 0 1 = 1 := by
  have hpostal : sharesTaggedBlock [dupRecordA, dupRecordB] "postal:" 0 1 :=
    ⟨("postal:039596", [0, 1]), by decide, ⟨"039596", by decide⟩, by decide, by decide⟩
  have hphon : sharesTaggedBlock [dupRecordA, dupRecordB] "phonetic:" 0 1 :=
    ⟨("phonetic:abc", [0, 1]), by decide, ⟨"abc", by decide⟩, by decide, by decide⟩
  exact ⟨by decide, hpostal, hphon,
    (scorer_once_per_pair [dupRecordA, dupRecordB] (3/4) 0 1).2 (by decide) hpostal hphon⟩

lemma stepPair_indep (r : List VenueRecord) (t₁ t₂ : ℚ) (st₁ st₂ : ResolverState)
    (p : ℕ × ℕ) (hs : st₁.seen = st₂.seen) (hc : st₁.scored = st₂.scored) :
    (stepPair r t₁ st₁ p).seen = (stepPair r t₂ st₂ p).seen ∧
    (stepPair r t₁ st₁ p).scored = (stepPair r t₂ st₂ p).scored := by
  unfold stepPair
  rw [hs, hc]
  split_ifs with h
  · exact ⟨hs, hc⟩
  · exact ⟨rfl, rfl⟩

lemma foldl_stepPair_indep (r : List VenueRecord) (t₁ t₂ : ℚ) :
    ∀ (l : List (ℕ × ℕ)) (st₁ st₂ : ResolverState),
      st₁.seen = st₂.seen → st₁.scored = st₂.scored →
      (l.foldl (stepPair r t₁) st₁).seen = (l.foldl (stepPair r t₂) st₂).seen ∧
      (l.foldl (stepPair r t₁) st₁).scored = (l.foldl (stepPair r t₂) st₂).scored := by
  intro l
  induction l with
  | nil => intro st₁ st₂ hs hc; exact ⟨hs, hc⟩
  | cons a l ih =>
    intro st₁ st₂ hs hc
    rw [List.foldl_cons, List.foldl_cons]
    have := stepPair_indep r t₁ t₂ st₁ st₂ a hs hc
    exact ih _ _ this.1 this.2

lemma processBlock_indep (r : List VenueRecord) (t₁ t₂ : ℚ) (st₁ st₂ : ResolverState)
    (members : List ℕ) (hs : st₁.seen = st₂.seen) (hc : st₁.scored = st₂.scored) :
    (processBlock r t₁ st₁ members).seen = (processBlock r t₂ st₂ members).seen ∧
    (processBlock r t₁ st₁ members).scored = (processBlock r t₂ st₂ members).scored := by
  unfold processBlock
  split_ifs
  · exact foldl_stepPair_indep r t₁ t₂ _ st₁ st₂ hs hc
  · exact ⟨hs, hc⟩

lemma resolveRun_scored_indep (records : List VenueRecord) (t₁ t₂ : ℚ) :
    (resolveRun records t₁).scored = (resolveRun records t₂).scored := by
  unfold resolveRun
  generalize buildBlocks records = bs
  have : ∀ (bs : List (String × List ℕ)) (st₁ st₂ : ResolverState),
      st₁.seen = st₂.seen → st₁.scored = st₂.scored →
      (bs.foldl (fun st b => processBlock records t₁ st b.2) st₁).seen
        = (bs.foldl (fun st b => processBlock records t₂ st b.2) st₂).seen ∧
      (bs.foldl (fun st b => processBlock records t₁ st b.2) st₁).scored
        = (bs.foldl (fun st b => processBlock records t₂ st b.2) st₂).scored := by
    intro bs
    induction bs with
    | nil => intro st₁ st₂ hs hc; exact ⟨hs, hc⟩
    | cons c cs ih =>
      intro st₁ st₂ hs hc
      rw [List.foldl_cons, List.foldl_cons]
      have := processBlock_indep records t₁ t₂ st₁ st₂ c.2 hs hc
      exact ih _ _ this.1 this.2
  exact (this bs ⟨[], [], []⟩ ⟨[], [], []⟩ rfl rfl).2

lemma stepPair_groupCount (r : List VenueRecord) (t : ℚ) (st : ResolverState) (p : ℕ × ℕ)
    (h : st.groups.length = st.scored.countP (fun e => decide (t ≤ e.2))) :
    (stepPair r t st p).groups.length
      = (stepPair r t st p).scored.countP (fun e => decide (t ≤ e.2)) := by
  unfold stepPair
  split_ifs with hmem
  · exact h
  · simp only [List.countP_append, List.length_append, h, List.countP_cons,
      List.countP_nil, decide_eq_true_eq]
    split_ifs <;> simp

lemma foldl_stepPair_groupCount (r : List VenueRecord) (t : ℚ) :
    ∀ (l : List (ℕ × ℕ)) (st : ResolverState),
      st.groups.length = st.scored.countP (fun e => decide (t ≤ e.2)) →
      (l.foldl (stepPair r t) st).groups.length
        = (l.foldl (stepPair r t) st).scored.countP (fun e => decide (t ≤ e.2)) := by
  intro l
  induction l with
  | nil => intro st h; exact h
  | cons a l ih =>
    intro st h
    rw [List.foldl_cons]
    exact ih _ (stepPair_groupCount r t st a h)

lemma processBlock_groupCount (r : List VenueRecord) (t : ℚ) (st : ResolverState)
    (members : List ℕ)
    (h : st.groups.length = st.scored.countP (fun e => decide (t ≤ e.2))) :
    (processBlock r t st members).groups.length
      = (processBlock r t st members).scored.countP (fun e => decide (t ≤ e.2)) := by
  unfold processBlock
  split_ifs
  · exact foldl_stepPair_groupCount r t _ st h
  · exact h

lemma resolveRun_groupCount (records : List VenueRecord) (t : ℚ) :
    (resolveRun records t).groups.length
      = (resolveRun records t).scored.countP (fun e => decide (t ≤ e.2)) := by
  unfold resolveRun
  generalize buildBlocks records = bs
  have : ∀ (bs : List (String × List ℕ)) (st : ResolverState),
      st.groups.length = st.scored.countP (fun e => decide (t ≤ e.2)) →
      (bs.foldl (fun st b => processBlock records t st b.2) st).groups.length
        = (bs.foldl (fun st b => processBlock records t st b.2) st).scored.countP
            (fun e => decide (t ≤ e.2)) := by
    intro bs
    induction bs with
    | nil => intro st h; exact h
    | cons c cs ih =>
      intro st h
      rw [List.foldl_cons]
      exact ih _ (processBlock_groupCount records t st c.2 h)
  exact this bs ⟨[], [], []⟩ rfl

/-- C4: raising the threshold cannot increase the number of emitted
DuplicateGroups. -/
theorem resolve_threshold_monotone (records : List VenueRecord) (t₁ t₂ : ℚ)
    (h : t₁ ≤ t₂) :
    (resolve records t₂).length ≤ (resolve records t₁).length := by
  unfold resolve
  rw [resolveRun_groupCount records t₂, resolveRun_groupCount records t₁,
    resolveRun_scored_indep records t₂ t₁]
  apply List.countP_mono_left
  intro e _ he
  simp only [decide_eq_true_eq] at *
  exact le_trans h he

/-- Concrete instantiation of `resolve_threshold_monotone`. -/
theorem resolve_threshold_monotone_witness :
    ((1 : ℚ)/20 ≤ 1/2) ∧
    (resolve [dupRecordA, dupRecordB] (1/2)).length
      ≤ (resolve [dupRecordA, dupRecordB] (1/20)).length :=
  ⟨by norm_num,
   resolve_threshold_monotone [dupRecordA, dupRecordB] (1/20) (1/2) (by norm_num)⟩

end WeddingAgents
